import Mathlib

/-!
Verification development for the CheckSpelling repository
(src/subtitle-checker.js). Strings are modelled as lists of characters;
the JavaScript string primitives used by the source (String.prototype.includes,
String.prototype.replace with a string pattern, global regex replacement of
fixed literals, String.prototype.trim, String.prototype.split) are embedded
below, following the ECMAScript semantics the source relies on.
-/

set_option autoImplicit false

namespace CheckSpelling

/-- Does the string begin with the given pattern? (Bool-valued helper used by
the embeddings of the JavaScript search primitives.) The first argument is the
pattern, the second the string searched. -/
def startsWith : List Char → List Char → Bool
  | [], _ => true
  | _ :: _, [] => false
  | p :: ps, c :: cs => p == c && startsWith ps cs

/-- Locate the first occurrence of the pattern in the string. Returns
some (before, after) with the searched string equal to
before ++ pattern ++ after, choosing the leftmost occurrence, and none when
the pattern does not occur. An empty pattern matches at position 0, exactly as
in the ECMAScript string search used by the source. -/
def firstSplit (pat : List Char) : List Char → Option (List Char × List Char)
  | [] => if startsWith pat [] then some ([], []) else none
  | c :: rest =>
      if startsWith pat (c :: rest) then
        some ([], List.drop pat.length (c :: rest))
      else
        (firstSplit pat rest).map (fun q => (c :: q.1, q.2))

/-- Embedding of JavaScript String.prototype.includes with a string argument,
as used at line 415 of src/subtitle-checker.js. -/
def includesStr (s pat : List Char) : Bool :=
  (firstSplit pat s).isSome

/-- The ECMAScript GetSubstitution expansion of a replacement string for a
string-valued (capture-free) pattern: the dollar escapes for the matched text,
the text before the match and the text after the match are special, every
other character is copied literally. The backquote and quote characters are
written with Char.ofNat 96 and Char.ofNat 39. -/
def getSubstitution (matched before after : List Char) : List Char → List Char
  | [] => []
  | c :: rest =>
      if c = '$' then
        match rest with
        | [] => ['$']
        | d :: rest2 =>
            if d = '$' then '$' :: getSubstitution matched before after rest2
            else if d = '&' then matched ++ getSubstitution matched before after rest2
            else if d = Char.ofNat 96 then before ++ getSubstitution matched before after rest2
            else if d = Char.ofNat 39 then after ++ getSubstitution matched before after rest2
            else '$' :: d :: getSubstitution matched before after rest2
      else c :: getSubstitution matched before after rest

/-- Embedding of JavaScript String.prototype.replace with a string pattern and
a string replacement (line 416 and line 430 of src/subtitle-checker.js):
replace the first occurrence of the pattern, expanding dollar escapes in the
replacement via GetSubstitution. -/
def replaceJS (s pat repl : List Char) : List Char :=
  match firstSplit pat s with
  | none => s
  | some q => q.1 ++ getSubstitution pat q.1 q.2 repl ++ q.2

/-- Modelled from the spec: literal first-occurrence replacement, the way
section 4.3 of the specification words it (replace the first occurrence of
originalSpan with correctedSpan, taken as literal text). Kept separate from
replaceJS so the two can be compared. -/
def replaceLiteral (s pat repl : List Char) : List Char :=
  match firstSplit pat s with
  | none => s
  | some q => q.1 ++ repl ++ q.2

/-- The left-to-right scan of a global replacement of a fixed nonempty
literal pattern (the /g regex replacements on fixed literals of
lines 291-293). The skip counter carries how many already-matched characters
remain to be consumed, so a match emits the replacement once and the scan
resumes after the matched text, as in ECMAScript; the emitted replacement is
never rescanned. -/
def replaceAllCore (pat repl : List Char) : List Char → Nat → List Char
  | [], _ => []
  | _ :: rest, skip + 1 => replaceAllCore pat repl rest skip
  | c :: rest, 0 =>
      if startsWith pat (c :: rest) && !pat.isEmpty then
        repl ++ replaceAllCore pat repl rest (pat.length - 1)
      else c :: replaceAllCore pat repl rest 0

/-- Global replacement of a fixed nonempty literal pattern, the embedding of
the entity-unescaping replacements of extractTextFromVTT. -/
def replaceAllNE (pat repl l : List Char) : List Char :=
  replaceAllCore pat repl l 0

/-- The scan of the global tag-stripping replacement at line 290 of
src/subtitle-checker.js. The flag records being inside a matched tag:
an opening angle bracket with a later closing bracket starts a match that
consumes everything through the next closing bracket; an opening bracket
with no later closing bracket cannot be matched by the regex and is copied
through, as is every character outside a match. -/
def removeTagsCore : Bool → List Char → List Char
  | _, [] => []
  | true, c :: rest =>
      if c = '>' then removeTagsCore false rest else removeTagsCore true rest
  | false, c :: rest =>
      if c = '<' && rest.contains '>' then removeTagsCore true rest
      else c :: removeTagsCore false rest

/-- Embedding of the global tag-stripping replacement of line 290. -/
def removeTags (l : List Char) : List Char :=
  removeTagsCore false l

/-- The white-space class used by the JavaScript trim and backslash-s regex
escape, restricted to the code points that can occur in the claims: tab,
line feed, vertical tab, form feed, carriage return, space, no-break space
and the byte order mark. -/
def isSpaceJS (c : Char) : Bool :=
  c = ' ' || c = Char.ofNat 9 || c = Char.ofNat 10 || c = Char.ofNat 11 ||
  c = Char.ofNat 12 || c = Char.ofNat 13 || c = Char.ofNat 160 || c = Char.ofNat 0xFEFF

/-- Embedding of String.prototype.trim. -/
def trimJS (l : List Char) : List Char :=
  ((l.dropWhile isSpaceJS).reverse.dropWhile isSpaceJS).reverse

/-- Embedding of String.prototype.split with a newline separator
(line 264 of src/subtitle-checker.js). Always returns at least one piece. -/
def splitLines : List Char → List (List Char)
  | [] => [[]]
  | c :: rest =>
      match splitLines rest with
      | [] => [[]]
      | l :: ls => if c = Char.ofNat 10 then [] :: l :: ls else (c :: l) :: ls

/-- Parse exactly n characters satisfying the predicate, returning the rest. -/
def parseCount (p : Char → Bool) : Nat → List Char → Option (List Char)
  | 0, l => some l
  | _ + 1, [] => none
  | n + 1, c :: rest => if p c then parseCount p n rest else none

/-- Parse one given literal character, returning the rest. -/
def parseLit (ch : Char) : List Char → Option (List Char)
  | [] => none
  | c :: rest => if c = ch then some rest else none

/-- Parse a VTT time of shape two digits, colon, two digits, colon, two
digits, dot, three digits (one side of the timestamp regex of line 275). -/
def parseTimePart (l : List Char) : Option (List Char) :=
  (((((((parseCount Char.isDigit 2 l).bind (parseLit ':')).bind
    (parseCount Char.isDigit 2)).bind (parseLit ':')).bind
    (parseCount Char.isDigit 2)).bind (parseLit '.')).bind
    (parseCount Char.isDigit 3))

/-- Embedding of the anchored timestamp regex test of line 275 of
src/subtitle-checker.js: time, optional white space, an ASCII arrow of two
hyphens and a closing angle bracket, optional white space, time; anything may
follow. -/
def matchTimestamp (l : List Char) : Bool :=
  match parseTimePart l with
  | none => false
  | some r1 =>
      let r2 := r1.dropWhile isSpaceJS
      match ((parseLit '-' r2).bind (parseLit '-')).bind (parseLit '>') with
      | none => false
      | some r3 => (parseTimePart (r3.dropWhile isSpaceJS)).isSome

/-- The cue-identifier test of line 281: one or more digits and nothing else. -/
def isAllDigits (l : List Char) : Bool :=
  !l.isEmpty && l.all Char.isDigit

/-- The per-line cleaning of lines 289-294: strip tags, unescape the three
HTML entities in source order, trim. -/
def cleanVTTLine (t : List Char) : List Char :=
  trimJS (replaceAllNE "&amp;".toList "&".toList
    (replaceAllNE "&gt;".toList ">".toList
      (replaceAllNE "&lt;".toList "<".toList (removeTags t))))

/-- The line loop of extractTextFromVTT (lines 266-300), carrying the
isTextLine flag. -/
def extractLoop : Bool → List (List Char) → List (List Char)
  | _, [] => []
  | isText, line :: rest =>
      let t := trimJS line
      if t = "WEBVTT".toList then extractLoop isText rest
      else if matchTimestamp t then extractLoop true rest
      else if t = [] || isAllDigits t then extractLoop false rest
      else if isText && decide (0 < t.length) then
        let clean := cleanVTTLine t
        if 0 < clean.length then clean :: extractLoop isText rest
        else extractLoop isText rest
      else extractLoop isText rest

/-- Embedding of SubtitleChecker.extractTextFromVTT (lines 262-303):
split into lines, run the cue-text state machine, join the retained cleaned
lines with single spaces. -/
def extractTextFromVTT (content : List Char) : List Char :=
  List.intercalate [' '] (extractLoop false (splitLines content))

/-- A proposed substitution returned by the analysis backend, with the field
names of the JSON objects consumed by applyCorrections (lines 411-413; the
kind and explanation fields are carried into the applied-changes record). -/
structure Correction where
  original : List Char
  corrected : List Char
  ctype : List Char
  explanation : List Char
  deriving DecidableEq, Repr

/-- One iteration of the correction loop of lines 411-426 of
src/subtitle-checker.js: the accumulator is
(modifiedContent, changesCount, appliedChanges); a correction whose original
text occurs in the current working copy replaces its first occurrence via the
JavaScript replace primitive and is recorded, otherwise the accumulator is
untouched. -/
def applyStep (acc : List Char × Nat × List Correction) (c : Correction) :
    List Char × Nat × List Correction :=
  if includesStr acc.1 c.original then
    (replaceJS acc.1 c.original c.corrected, acc.2.1 + 1, acc.2.2 ++ [c])
  else acc

/-- The pure content transformation of SubtitleChecker.applyCorrections
(lines 402-426): fold the corrections in the order supplied over the original
content. Returns (new content, changesCount, appliedChanges). -/
def applyCorrections (content : List Char) (cs : List Correction) :
    List Char × Nat × List Correction :=
  cs.foldl applyStep (content, 0, [])

/-- Modelled from the spec: the same loop as applyStep but with the literal
first-occurrence replacement that section 4.3 of the specification describes
(correctedSpan inserted verbatim). -/
def applyStepSpec (acc : List Char × Nat × List Correction) (c : Correction) :
    List Char × Nat × List Correction :=
  if includesStr acc.1 c.original then
    (replaceLiteral acc.1 c.original c.corrected, acc.2.1 + 1, acc.2.2 ++ [c])
  else acc

/-- Modelled from the spec: the Correction Engine content transformation as
worded in section 4.3, for comparison against applyCorrections. -/
def applyCorrectionsSpec (content : List Char) (cs : List Correction) :
    List Char × Nat × List Correction :=
  cs.foldl applyStepSpec (content, 0, [])

/-- A path or file name, as a list of characters. -/
abbrev Path : Type := List Char

/-- What the filesystem holds at a path: nothing (stat fails), a file that
stat can see but reads fail on, or a readable file with its byte content. -/
inductive FileAccess where
  | absent
  | unreadable
  | readable (content : List Char)
  deriving DecidableEq, Repr

/-- The result of reading a file: some content when readable, none when the
read raises (file missing or unreadable). -/
def readF : FileAccess → Option (List Char)
  | .readable c => some c
  | _ => none

/-- A snapshot of the filesystem, one FileAccess per path. -/
abbrev FS : Type := Path → FileAccess

/-- Writing a file: the path now holds the given readable content, every
other path is untouched. -/
def writeFS (fs : FS) (p : Path) (c : List Char) : FS :=
  fun q => if q = p then .readable c else fs q

/-- The literal ".vtt" searched by the backup-path derivation of line 430. -/
def dotVtt : List Char := ".vtt".toList

/-- The literal ".vtt.backup" inserted by the backup-path derivation. -/
def dotVttBackup : List Char := ".vtt.backup".toList

/-- The backup path derivation of line 430 of src/subtitle-checker.js:
replace the first occurrence of ".vtt" in the file path with ".vtt.backup". -/
def backupPathOf (p : Path) : Path :=
  replaceJS p dotVtt dotVttBackup

/-- The object returned by applyCorrections: the success flag, the number of
corrections applied and the applied-changes list (lines 446-450; the catch
branch of lines 452-458 returns success false with no counts). -/
structure FixResult where
  success : Bool
  changesCount : Nat
  appliedChanges : List Correction
  deriving DecidableEq, Repr

/-- The filesystem-facing part of SubtitleChecker.applyCorrections
(lines 402-459): run the pure correction fold, and when at least one
correction was applied copy the current file to the backup path and then
overwrite the file with the new content. A copy whose source cannot be read
raises, which the catch of line 452 turns into a success-false result with no
writes performed. -/
def applyCorrectionsFS (fs : FS) (filePath : Path) (originalContent : List Char)
    (cs : List Correction) : FS × FixResult :=
  let r := applyCorrections originalContent cs
  if 0 < r.2.1 then
    match fs filePath with
    | .readable cur =>
        (writeFS (writeFS fs (backupPathOf filePath) cur) filePath r.1,
         ⟨true, r.2.1, r.2.2⟩)
    | _ => (fs, ⟨false, 0, []⟩)
  else (fs, ⟨true, r.2.1, r.2.2⟩)

/-- One entry of the persisted processing state (lines 220-224): the stored
content fingerprint (none models the null produced by a failed hash) and the
error-presence flag. The wall-clock lastProcessed timestamp carried alongside
in the source is not modelled, no claim depends on it. -/
structure FileStateEntry where
  hash : Option Nat
  hasErrors : Bool
  deriving DecidableEq, Repr

/-- The filename-indexed processing state mapping. -/
abbrev StateMap : Type := List Char → Option FileStateEntry

/-- Assigning this.state at a filename: a none update models the paths of
checkVTTFile on which no assignment happens. -/
def setEntry (st : StateMap) (n : List Char) : Option FileStateEntry → StateMap
  | none => st
  | some e => fun m => if m = n then some e else st m

/-- Embedding of SubtitleChecker.getFileHash (lines 99-106): read the file
and digest its content, or return null when the read raises. The digest
itself is an external primitive (crypto MD5); it is abstracted as an
arbitrary function from content to a number, which every theorem below
quantifies over. The caller passes the FileAccess found at the path. -/
def getFileHash (hashFn : List Char → Nat) (fa : FileAccess) : Option Nat :=
  (readF fa).map hashFn

/-- The reason strings returned by shouldProcessFile (lines 108-130). -/
inductive Reason where
  | forced
  | newFile
  | modified
  | unchanged
  | stateError
  deriving DecidableEq, Repr

/-- A processing decision: the should flag and the reason. -/
structure Decision where
  should : Bool
  reason : Reason
  deriving DecidableEq, Repr

/-- Embedding of SubtitleChecker.shouldProcessFile (lines 108-130): forced
short-circuits; a failing stat (absent file) lands in the catch and yields
stateError; otherwise the current hash (null on an unreadable file, since
getFileHash swallows its own errors) is compared against the stored entry. -/
def shouldProcessFile (hashFn : List Char → Nat) (force : Bool) (st : StateMap)
    (filename : List Char) (fa : FileAccess) : Decision :=
  if force then ⟨true, .forced⟩
  else
    match fa with
    | .absent => ⟨true, .stateError⟩
    | _ =>
        let currentHash := getFileHash hashFn fa
        match st filename with
        | none => ⟨true, .newFile⟩
        | some e => if e.hash ≠ currentHash then ⟨true, .modified⟩ else ⟨false, .unchanged⟩

/-- Modelled from the spec: the decide contract of section 4.1 as worded
there - FORCED on the force flag, STATE_ERROR on any I/O error while
fingerprinting, then NEW / MODIFIED / UNCHANGED by comparing fingerprints. -/
def decideSpec (hashFn : List Char → Nat) (force : Bool) (st : StateMap)
    (filename : List Char) (fa : FileAccess) : Decision :=
  if force then ⟨true, .forced⟩
  else
    match readF fa with
    | none => ⟨true, .stateError⟩
    | some c =>
        match st filename with
        | none => ⟨true, .newFile⟩
        | some e =>
            if e.hash ≠ some (hashFn c) then ⟨true, .modified⟩ else ⟨false, .unchanged⟩

/-- The status field of an analysis result (lines 305-399). -/
inductive AStatus where
  | success
  | error
  | skipped
  deriving DecidableEq, Repr

/-- The analysis-client result consumed by checkVTTFile: the status and the
corrections array (none models the undefined corrections of the error and
skipped results). The free-text analysis, summary and token-usage fields that
the source carries are never branched on and are omitted. -/
structure AnalysisResult where
  status : AStatus
  corrections : Option (List Correction)
  deriving DecidableEq, Repr

/-- The truthiness test analysis.corrections and corrections.length greater
than zero of lines 223 and 227. -/
def hasCorrections (a : AnalysisResult) : Bool :=
  match a.corrections with
  | some l => decide (0 < l.length)
  | none => false

/-- The corrections list passed to applyCorrections (defined when
hasCorrections holds). -/
def corrOf (a : AnalysisResult) : List Correction :=
  a.corrections.getD []

/-- One element of this.results: the catch branch pushes a filename-error
record (lines 255-258), the normal branches push the analysis with an
optional fix result (lines 229-234 and 245-249). -/
inductive ResultEntry where
  | errored (filename : List Char)
  | analyzed (filename : List Char) (analysis : AnalysisResult) (fix : Option FixResult)
  deriving DecidableEq, Repr

/-- The filename a result entry belongs to. -/
def ResultEntry.name : ResultEntry → List Char
  | .errored f => f
  | .analyzed f _ _ => f

/-- What one call of checkVTTFile produces: the filesystem after it, the
state-entry assignment it performed (none when it assigned nothing) and the
result entry it pushed (none on the empty-text early return). -/
structure CheckOutcome where
  fs : FS
  entry : Option FileStateEntry
  res : Option ResultEntry

/-- The subtitles directory prefix of file paths (path.join de-sugared; the
process-location prefix of the source is abstracted away and contains no
".vtt", as in the repository layout). -/
def subtitlesDir : Path := "subtitles".toList

/-- path.join(subtitlesDir, filename) for a file of the subtitles folder. -/
def vttPath (filename : List Char) : Path :=
  subtitlesDir ++ '/' :: filename

/-- Embedding of SubtitleChecker.checkVTTFile (lines 202-260) for one file,
with the analysis-client response passed in as data: read the file (a failing
read lands in the catch of line 253 and yields an error result), extract the
cue text, return early on empty text, record the pre-correction hash and the
error flag, then on a successful analysis with corrections run the correction
engine and, when corrections were applied, re-record the post-correction
hash. The state assignments of lines 220-224 and 238-239 are returned as the
final entry assignment. -/
def checkVTTFile (hashFn : List Char → Nat) (fs : FS) (filename : List Char)
    (analysis : AnalysisResult) : CheckOutcome :=
  let filePath := vttPath filename
  match fs filePath with
  | .readable content =>
      let subtitleText := extractTextFromVTT content
      if subtitleText = [] || trimJS subtitleText = [] then ⟨fs, none, none⟩
      else
        let entry1 : FileStateEntry :=
          ⟨getFileHash hashFn (fs filePath), hasCorrections analysis⟩
        if analysis.status = .success ∧ hasCorrections analysis = true then
          let pr := applyCorrectionsFS fs filePath content (corrOf analysis)
          if pr.2.success = true ∧ 0 < pr.2.changesCount then
            ⟨pr.1, some ⟨getFileHash hashFn (pr.1 filePath), false⟩,
             some (.analyzed filename analysis (some pr.2))⟩
          else
            ⟨pr.1, some entry1, some (.analyzed filename analysis (some pr.2))⟩
        else
          ⟨fs, some entry1, some (.analyzed filename analysis none)⟩
  | _ => ⟨fs, none, some (.errored filename)⟩

/-- Does the string end with the given suffix? (the endsWith filter of
line 135). -/
def endsWithList (l suffix : List Char) : Bool :=
  startsWith suffix.reverse l.reverse

/-- The planning loop of processVTTFiles (lines 144-157): split the eligible
files into the dispatch list and the skipped list according to
shouldProcessFile, preserving directory order. -/
def planFiles (hashFn : List Char → Nat) (force : Bool) (fs : FS) (st : StateMap)
    (files : List (List Char)) : List (List Char) × List (List Char) :=
  (files.filter (fun f => (shouldProcessFile hashFn force st f (fs (vttPath f))).should),
   files.filter (fun f => !(shouldProcessFile hashFn force st f (fs (vttPath f))).should))

/-- The outcome of a run over a list of dispatched files: final filesystem,
final state mapping and the collected per-file results. -/
structure RunOutcome where
  fs : FS
  st : StateMap
  results : List ResultEntry

/-- Embedding of processFilesInParallel plus the per-file pipelines
(lines 187-200): every dispatched file runs checkVTTFile; the bounded
concurrency of the source is modelled as execution in dispatch order (the
pipelines touch disjoint state keys, and Promise.all is the barrier). -/
def runPipeline (hashFn : List Char → Nat) (fs : FS) (st : StateMap) :
    List (List Char) → (List Char → AnalysisResult) → RunOutcome
  | [], _ => ⟨fs, st, []⟩
  | n :: rest, an =>
      let o := checkVTTFile hashFn fs n (an n)
      let r := runPipeline hashFn o.fs (setEntry st n o.entry) rest an
      ⟨r.fs, r.st, o.res.toList ++ r.results⟩

/-- Embedding of processVTTFiles (lines 132-185): filter the directory
listing down to ".vtt" files, plan, and dispatch the files to process. -/
def processVTTFilesModel (hashFn : List Char → Nat) (force : Bool) (fs : FS)
    (st : StateMap) (files : List (List Char)) (an : List Char → AnalysisResult) :
    RunOutcome :=
  let vttFiles := files.filter (fun f => endsWithList f dotVtt)
  runPipeline hashFn fs st (planFiles hashFn force fs st vttFiles).1 an

/-- The observable state of the Semaphore of lines 8-36 of
src/subtitle-checker.js: the configured maximum, the current counter (a
JavaScript number, hence an integer that release may drive below zero) and
the length of the waiting queue (the queued continuations are
interchangeable, so only their number is kept). -/
structure Sem where
  max : Int
  current : Int
  waiting : Nat
  deriving DecidableEq, Repr

/-- The two operations callers perform on the semaphore. A release event is
one invocation of a release token (the token of line 19 and line 23 is the
closure fun unit => this.release with no further state, so invoking it is
exactly one release call). -/
inductive SemEvent where
  | acquire
  | release
  deriving DecidableEq, Repr

/-- One atomic transition of the semaphore. acquire (lines 15-27): grant
immediately when current is below max, otherwise queue a waiter. release
(lines 29-35): decrement current, then, when a waiter is queued, dequeue one
and run its continuation, which increments current and grants that waiter its
permit - both happen synchronously inside the release call. -/
def semStep (s : Sem) : SemEvent → Sem
  | .acquire =>
      if s.current < s.max then ⟨s.max, s.current + 1, s.waiting⟩
      else ⟨s.max, s.current, s.waiting + 1⟩
  | .release =>
      if 0 < s.waiting then ⟨s.max, s.current - 1 + 1, s.waiting - 1⟩
      else ⟨s.max, s.current - 1, s.waiting⟩

/-- A freshly constructed semaphore (constructor of lines 9-13). -/
def initSem (n : Int) : Sem := ⟨n, 0, 0⟩

/-- The semaphore after an arbitrary interleaving of acquire and release
calls starting from a fresh instance. -/
def semRun (n : Int) (events : List SemEvent) : Sem :=
  events.foldl semStep (initSem n)

/-- The semaphore together with the instrumentation the concurrency-bound
property speaks about: how many permits have been granted (immediate grants
plus woken waiters) and how many release calls have happened. -/
structure SemTrace where
  sem : Sem
  granted : Int
  released : Int
  deriving DecidableEq, Repr

/-- The instrumented transition: the same state change as semStep, also
counting grants and releases. -/
def semStepCount (t : SemTrace) : SemEvent → SemTrace
  | .acquire =>
      if t.sem.current < t.sem.max then
        ⟨semStep t.sem .acquire, t.granted + 1, t.released⟩
      else
        ⟨semStep t.sem .acquire, t.granted, t.released⟩
  | .release =>
      if 0 < t.sem.waiting then
        ⟨semStep t.sem .release, t.granted + 1, t.released + 1⟩
      else
        ⟨semStep t.sem .release, t.granted, t.released + 1⟩

/-- The instrumented semaphore after an arbitrary call sequence from a fresh
instance. -/
def semRunCount (n : Int) (events : List SemEvent) : SemTrace :=
  events.foldl semStepCount ⟨initSem n, 0, 0⟩

/-- The inductive invariant of the instrumented semaphore: the maximum is
the configured one, the counter never exceeds it, and the counter equals
grants minus releases (the number of outstanding permits under the
one-release-per-grant discipline). -/
def semInvHolds (n : Int) (t : SemTrace) : Prop :=
  t.sem.max = n ∧ t.sem.current ≤ n ∧ t.granted - t.released = t.sem.current

/-- Concrete data for the witnesses: the teh-correction of the
correction-safety property. -/
def tehCorrection : Correction :=
  ⟨"teh".toList, "the".toList, "spelling".toList, []⟩

/-- Concrete data for the witnesses: the content of the correction-safety
property. -/
def tehContent : List Char := "The cat sat on teh mat, teh end.".toList

/-- A correction whose replacement consists of dollar escapes, exercising the
GetSubstitution semantics of the JavaScript replace primitive. -/
def dollarCorrection : Correction :=
  ⟨"a".toList, ['$', '&', '$', '&'], "spelling".toList, []⟩

/-- A filesystem holding one doubly-extensioned subtitle file, for the
backup-path counterexample. -/
def doubleVttFS : FS :=
  fun p => if p = "subtitles/a.vtt.vtt".toList then .readable "teh x".toList else .absent

/-- A stored state mapping holding one entry with a recorded fingerprint, for
the decision counterexample. -/
def oneEntryState : StateMap :=
  fun n => if n = "a.vtt".toList then some ⟨some 5, false⟩ else none

/-- A concrete event sequence dispatching five tasks through a semaphore of
capacity two, for the concurrency-bound witness. -/
def demoEvents : List SemEvent :=
  [.acquire, .acquire, .acquire, .acquire, .acquire,
   .release, .release, .release, .release, .release]

/-- A well-formed subtitle sample used by several witnesses. -/
def vttSample : List Char :=
  "WEBVTT\n\n00:00:00.000 --> 00:00:01.000\nHello world\n".toList

/-- A filesystem holding the sample under two names, for the isolation and
skip witnesses. -/
def twoFileFS : FS :=
  fun p =>
    if p = vttPath "a.vtt".toList then .readable vttSample
    else if p = vttPath "b.vtt".toList then .readable vttSample
    else .absent

/-- A filesystem holding one ordinary subtitle file with one misspelling, for
the backup witness. -/
def movieFS : FS :=
  fun p =>
    if p = "subtitles/movie".toList ++ dotVtt then .readable "teh x".toList else .absent

/-- A filesystem holding the already-processed file of the idempotent-skip
witness. -/
def demoSkipFS : FS :=
  fun p => if p = vttPath "a.vtt".toList then .readable "hello".toList else .absent

/-- An analysis-client stub failing for a.vtt and succeeding with no
corrections for every other file, for the isolation witness. -/
def demoAnalyses : List Char → AnalysisResult :=
  fun n => if n = "a.vtt".toList then ⟨.error, none⟩ else ⟨.success, some []⟩

/-- A subtitle file containing a misspelling, for the backup-clobber run. -/
def tehVtt : List Char :=
  "WEBVTT\n\n00:00:00.000 --> 00:00:01.000\nteh cat\n".toList

/-- A filesystem holding the two eligible files of the backup-clobber run:
a.vtt.backup.vtt (clean) and a.vtt.vtt (misspelled). The backup path the
engine derives for a.vtt.vtt is exactly the path of a.vtt.backup.vtt. -/
def clobberFS : FS :=
  fun p =>
    if p = vttPath "a.vtt.backup.vtt".toList then .readable vttSample
    else if p = vttPath "a.vtt.vtt".toList then .readable tehVtt
    else .absent

/-- The analysis stub of the backup-clobber run: a correction for a.vtt.vtt,
a clean success for every other file. -/
def clobberAnalyses : List Char → AnalysisResult :=
  fun n =>
    if n = "a.vtt.vtt".toList then ⟨.success, some [tehCorrection]⟩
    else ⟨.success, some []⟩

/-- The backup-clobber run: a.vtt.backup.vtt is processed and recorded first,
then a.vtt.vtt is processed and its backup write lands on the path of
a.vtt.backup.vtt. -/
def clobberRun : RunOutcome :=
  runPipeline (fun l => l.length) clobberFS (fun _ => none)
    ["a.vtt.backup.vtt".toList, "a.vtt.vtt".toList] clobberAnalyses

/-- A replacement string without a dollar character is expanded to itself by
GetSubstitution. -/
theorem getSubstitution_no_dollar (matched before after : List Char) :
    ∀ repl : List Char, '$' ∉ repl →
      getSubstitution matched before after repl = repl := by
  intro repl
  induction repl with
  | nil => intro _; rfl
  | cons c rest ih =>
      intro h
      have hc : c ≠ '$' := fun hc => h (hc ▸ List.mem_cons_self c rest)
      have hrest : '$' ∉ rest := fun hr => h (List.mem_cons_of_mem c hr)
      cases rest with
      | nil => rw [getSubstitution.eq_2, if_neg hc, getSubstitution.eq_1]
      | cons d rest2 => rw [getSubstitution.eq_3, if_neg hc, ih hrest]

/-- The JavaScript replace agrees with literal replacement whenever the
replacement string has no dollar character. -/
theorem replaceJS_no_dollar (s pat repl : List Char) (h : '$' ∉ repl) :
    replaceJS s pat repl = replaceLiteral s pat repl := by
  unfold replaceJS replaceLiteral
  cases firstSplit pat s with
  | none => rfl
  | some q =>
      show q.1 ++ getSubstitution pat q.1 q.2 repl ++ q.2 = q.1 ++ repl ++ q.2
      rw [getSubstitution_no_dollar _ _ _ _ h]

/-- One correction step agrees with its literal-specification counterpart
whenever the corrected span has no dollar character. -/
theorem applyStep_eq_spec (acc : List Char × Nat × List Correction)
    (c : Correction) (h : '$' ∉ c.corrected) :
    applyStep acc c = applyStepSpec acc c := by
  unfold applyStep applyStepSpec
  by_cases hin : includesStr acc.1 c.original
  · rw [if_pos hin, if_pos hin, replaceJS_no_dollar _ _ _ h]
  · rw [if_neg hin, if_neg hin]

/-- Folding the correction loop from any accumulator agrees with the literal
specification loop when no corrected span has a dollar character. -/
theorem foldl_applyStep_eq_spec :
    ∀ (cs : List Correction) (acc : List Char × Nat × List Correction),
      (∀ c ∈ cs, '$' ∉ c.corrected) →
      cs.foldl applyStep acc = cs.foldl applyStepSpec acc := by
  intro cs
  induction cs with
  | nil => intro _ _; rfl
  | cons c rest ih =>
      intro acc h
      simp only [List.foldl_cons]
      rw [applyStep_eq_spec acc c (h c (List.mem_cons_self c rest))]
      exact ih _ (fun d hd => h d (List.mem_cons_of_mem c hd))

/-- C1 counterexample: the Correction Engine does not insert the corrected
span literally. The JavaScript replace primitive expands dollar escapes, so
the correction replacing "a" by the four characters dollar-ampersand
dollar-ampersand turns "ab" into "aab", while the literal replacement the
claim describes would give dollar-ampersand dollar-ampersand followed by
"b". -/
theorem applyCorrections_dollar_not_literal :
    (applyCorrections "ab".toList [dollarCorrection]).1 = "aab".toList ∧
    (applyCorrectionsSpec "ab".toList [dollarCorrection]).1 =
      ('$' :: '&' :: '$' :: '&' :: 'b' :: []) ∧
    (applyCorrections "ab".toList [dollarCorrection]).1 ≠
      (applyCorrectionsSpec "ab".toList [dollarCorrection]).1 := by
  refine ⟨by decide, by decide, by decide⟩

/-- C1 (amended): for every original content and every list of corrections
whose corrected spans contain no dollar character, the Correction Engine
applies the corrections strictly in the order supplied and, for each
correction whose originalSpan occurs in the current working copy, replaces
exactly the first occurrence with the literal correctedSpan and counts it as
applied - that is, applyCorrections coincides with the specification-worded
applyCorrectionsSpec on such inputs. -/
theorem applyCorrections_refines_spec (content : List Char)
    (cs : List Correction) (h : ∀ c ∈ cs, '$' ∉ c.corrected) :
    applyCorrections content cs = applyCorrectionsSpec content cs :=
  foldl_applyStep_eq_spec cs (content, 0, []) h

/-- C1 witness: the teh-correction of the claim satisfies the no-dollar
hypothesis, the code and specification loops agree on it, and applying it to
"The cat sat on teh mat, teh end." yields "The cat sat on the mat, teh end."
with exactly one applied correction. -/
theorem applyCorrections_refines_spec_witness :
    (∀ c ∈ [tehCorrection], '$' ∉ c.corrected) ∧
    applyCorrections tehContent [tehCorrection] =
      applyCorrectionsSpec tehContent [tehCorrection] ∧
    (applyCorrections tehContent [tehCorrection]).1 =
      "The cat sat on the mat, teh end.".toList ∧
    (applyCorrections tehContent [tehCorrection]).2.1 = 1 :=
  ⟨by decide, applyCorrections_refines_spec tehContent [tehCorrection] (by decide),
   by decide, by decide⟩

/-- C6: a correction whose originalSpan does not occur in the current working
copy (the content after the earlier corrections of the same call) leaves the
content, the applied count and the applied-changes record exactly as they
were - a silent no-op, with no error channel in the return value. -/
theorem missing_span_noop (content : List Char) (cs : List Correction)
    (c : Correction)
    (h : firstSplit c.original (applyCorrections content cs).1 = none) :
    applyCorrections content (cs ++ [c]) = applyCorrections content cs := by
  unfold applyCorrections at *
  rw [List.foldl_append, List.foldl_cons, List.foldl_nil, applyStep]
  simp [includesStr, h]

/-- C6 witness: a correction whose span "zz" does not occur in "abc" is a
no-op. -/
theorem missing_span_noop_witness :
    firstSplit ("zz".toList)
        (applyCorrections "abc".toList []).1 = none ∧
    applyCorrections "abc".toList
        ([] ++ [(⟨"zz".toList, "q".toList, [], []⟩ : Correction)]) =
      applyCorrections "abc".toList [] :=
  ⟨by decide,
   missing_span_noop "abc".toList [] ⟨"zz".toList, "q".toList, [], []⟩ (by decide)⟩

/-- C2 counterexample: the backup path is not the original filename with a
suffix appended. For the eligible file "a.vtt.vtt" (its name ends in ".vtt"),
one correction is applied, yet after apply the path
"subtitles/a.vtt.vtt.backup" - the original path with the backup suffix
appended - holds nothing, while the backup was written to
"subtitles/a.vtt.backup.vtt", because line 430 replaces the first occurrence
of ".vtt" in the path rather than appending to it. -/
theorem backupPath_not_suffix_append :
    (applyCorrectionsFS doubleVttFS "subtitles/a.vtt.vtt".toList
        "teh x".toList [tehCorrection]).2.changesCount = 1 ∧
    (applyCorrectionsFS doubleVttFS "subtitles/a.vtt.vtt".toList
        "teh x".toList [tehCorrection]).1 "subtitles/a.vtt.vtt.backup".toList = .absent ∧
    (applyCorrectionsFS doubleVttFS "subtitles/a.vtt.vtt".toList
        "teh x".toList [tehCorrection]).1 "subtitles/a.vtt.backup.vtt".toList =
      .readable "teh x".toList ∧
    (applyCorrectionsFS doubleVttFS "subtitles/a.vtt.vtt".toList
        "teh x".toList [tehCorrection]).1 "subtitles/a.vtt.vtt".toList =
      .readable "the x".toList := by
  refine ⟨by decide, by decide, by decide, by decide⟩

/-- C2 (amended): whenever at least one correction is applied to a file whose
path contains ".vtt" only as its final extension, the engine first writes a
backup holding the pre-correction bytes at the path obtained by replacing the
first ".vtt" of the path with ".vtt.backup" - which, for such a path, equals
the original path with ".backup" appended - and only then overwrites the
original file with the post-correction content; after apply the backup holds
the pre-correction bytes and the live file the post-correction content, and
the fix result reports success with the applied count. -/
theorem backup_before_overwrite (fs : FS) (stem content : List Char)
    (cs : List Correction)
    (hfs : fs (stem ++ dotVtt) = .readable content)
    (hstem : firstSplit dotVtt (stem ++ dotVtt) = some (stem, []))
    (hcount : 0 < (applyCorrections content cs).2.1) :
    backupPathOf (stem ++ dotVtt) = (stem ++ dotVtt) ++ ".backup".toList ∧
    writeFS fs (backupPathOf (stem ++ dotVtt)) content (stem ++ dotVtt) =
      .readable content ∧
    (applyCorrectionsFS fs (stem ++ dotVtt) content cs).1
      (backupPathOf (stem ++ dotVtt)) = .readable content ∧
    (applyCorrectionsFS fs (stem ++ dotVtt) content cs).1 (stem ++ dotVtt) =
      .readable (applyCorrections content cs).1 ∧
    (applyCorrectionsFS fs (stem ++ dotVtt) content cs).2.success = true ∧
    (applyCorrectionsFS fs (stem ++ dotVtt) content cs).2.changesCount =
      (applyCorrections content cs).2.1 := by
  have hnd : '$' ∉ dotVttBackup := by decide
  have hbp : backupPathOf (stem ++ dotVtt) = stem ++ dotVttBackup := by
    unfold backupPathOf replaceJS
    rw [hstem]
    show stem ++ getSubstitution dotVtt stem [] dotVttBackup ++ [] = stem ++ dotVttBackup
    rw [getSubstitution_no_dollar _ _ _ _ hnd, List.append_nil]
  have hne : backupPathOf (stem ++ dotVtt) ≠ stem ++ dotVtt := by
    rw [hbp]
    intro heq
    have hlen := congrArg List.length heq
    simp only [List.length_append] at hlen
    have h1 : dotVttBackup.length = 11 := by decide
    have h2 : dotVtt.length = 4 := by decide
    omega
  have key : applyCorrectionsFS fs (stem ++ dotVtt) content cs =
      (writeFS (writeFS fs (backupPathOf (stem ++ dotVtt)) content) (stem ++ dotVtt)
         (applyCorrections content cs).1,
       ⟨true, (applyCorrections content cs).2.1, (applyCorrections content cs).2.2⟩) := by
    unfold applyCorrectionsFS
    rw [if_pos hcount, hfs]
  refine ⟨?_, ?_, ?_, ?_, ?_, ?_⟩
  · rw [hbp]
    have hsplit : dotVttBackup = dotVtt ++ ".backup".toList := by decide
    rw [hsplit, List.append_assoc]
  · unfold writeFS
    rw [if_neg (fun heq => hne heq.symm), hfs]
  · rw [key]
    show writeFS (writeFS fs (backupPathOf (stem ++ dotVtt)) content) (stem ++ dotVtt)
        (applyCorrections content cs).1 (backupPathOf (stem ++ dotVtt)) = .readable content
    unfold writeFS
    rw [if_neg hne, if_pos rfl]
  · rw [key]
    show writeFS (writeFS fs (backupPathOf (stem ++ dotVtt)) content) (stem ++ dotVtt)
        (applyCorrections content cs).1 (stem ++ dotVtt) =
      .readable (applyCorrections content cs).1
    unfold writeFS
    rw [if_pos rfl]
  · rw [key]
  · rw [key]

/-- C2 witness: the ordinary file "subtitles/movie.vtt" containing "teh x"
with the teh-correction exercises the amended backup theorem. -/
theorem backup_before_overwrite_witness :
    (movieFS ("subtitles/movie".toList ++ dotVtt) = .readable "teh x".toList ∧
     firstSplit dotVtt ("subtitles/movie".toList ++ dotVtt) =
       some ("subtitles/movie".toList, []) ∧
     0 < (applyCorrections "teh x".toList [tehCorrection]).2.1) ∧
    (applyCorrectionsFS movieFS ("subtitles/movie".toList ++ dotVtt)
      "teh x".toList [tehCorrection]).1
      (backupPathOf ("subtitles/movie".toList ++ dotVtt)) = .readable "teh x".toList ∧
    (applyCorrectionsFS movieFS ("subtitles/movie".toList ++ dotVtt)
      "teh x".toList [tehCorrection]).1 ("subtitles/movie".toList ++ dotVtt) =
      .readable (applyCorrections "teh x".toList [tehCorrection]).1 :=
  ⟨⟨by decide, by decide, by decide⟩,
   (backup_before_overwrite movieFS "subtitles/movie".toList "teh x".toList
      [tehCorrection] (by decide) (by decide) (by decide)).2.2.1,
   (backup_before_overwrite movieFS "subtitles/movie".toList "teh x".toList
      [tehCorrection] (by decide) (by decide) (by decide)).2.2.2.1⟩

/-- The instrumented transition performs exactly the semStep transition on
its semaphore component. -/
theorem semStepCount_sem (t : SemTrace) (e : SemEvent) :
    (semStepCount t e).sem = semStep t.sem e := by
  cases e with
  | acquire =>
      unfold semStepCount
      by_cases h : t.sem.current < t.sem.max
      · rw [if_pos h]
      · rw [if_neg h]
  | release =>
      unfold semStepCount
      by_cases h : 0 < t.sem.waiting
      · rw [if_pos h]
      · rw [if_neg h]

/-- One instrumented step preserves the semaphore invariant. -/
theorem semInvHolds_step {n : Int} {t : SemTrace} (e : SemEvent)
    (h : semInvHolds n t) : semInvHolds n (semStepCount t e) := by
  obtain ⟨hm, hc, hg⟩ := h
  cases e with
  | acquire =>
      by_cases hlt : t.sem.current < t.sem.max
      · simp only [semStepCount, semStep, if_pos hlt, semInvHolds]
        exact ⟨hm, by omega, by omega⟩
      · simp only [semStepCount, semStep, if_neg hlt, semInvHolds]
        exact ⟨hm, hc, hg⟩
  | release =>
      by_cases hw : 0 < t.sem.waiting
      · simp only [semStepCount, semStep, if_pos hw, semInvHolds]
        exact ⟨hm, by omega, by omega⟩
      · simp only [semStepCount, semStep, if_neg hw, semInvHolds]
        exact ⟨hm, by omega, by omega⟩

/-- Folding any sequence of instrumented steps preserves the invariant. -/
theorem semInvHolds_foldl {n : Int} :
    ∀ (events : List SemEvent) (t : SemTrace), semInvHolds n t →
      semInvHolds n (events.foldl semStepCount t) := by
  intro events
  induction events with
  | nil => intro t h; exact h
  | cons e rest ih =>
      intro t h
      rw [List.foldl_cons]
      exact ih _ (semInvHolds_step e h)

/-- The instrumented run projects to the plain run. -/
theorem semRunCount_sem (n : Int) :
    ∀ (events : List SemEvent) (t : SemTrace),
      (events.foldl semStepCount t).sem = events.foldl semStep t.sem := by
  intro events
  induction events with
  | nil => intro t; rfl
  | cons e rest ih =>
      intro t
      rw [List.foldl_cons, List.foldl_cons, ih, semStepCount_sem]

/-- C3: for every configured maximum N at least zero and every sequence of
acquire and release calls - in particular a dispatch of M tasks with M
greater than N - the number of outstanding permits (granted and not yet
released, equal to grants minus releases under the one-release-per-grant
discipline that the try/finally of processFilesInParallel enforces) never
exceeds N, and the semaphore counter itself never exceeds N. Quantifying over
all call sequences covers every instant of every execution. -/
theorem semaphore_outstanding_le_max (n : Int) (events : List SemEvent)
    (hn : 0 ≤ n) :
    (semRunCount n events).granted - (semRunCount n events).released ≤ n ∧
    (semRun n events).current ≤ n := by
  have hinv : semInvHolds n (semRunCount n events) :=
    semInvHolds_foldl events ⟨initSem n, 0, 0⟩ ⟨rfl, hn, by simp [initSem]⟩
  obtain ⟨hm, hc, hg⟩ := hinv
  constructor
  · omega
  · have hsem : (semRunCount n events).sem = semRun n events := by
      unfold semRunCount semRun
      exact semRunCount_sem n events ⟨initSem n, 0, 0⟩
    rw [← hsem]
    exact hc

/-- C3 witness: five tasks dispatched through a semaphore of capacity two. -/
theorem semaphore_outstanding_le_max_witness :
    (0 : Int) ≤ 2 ∧
    ((semRunCount 2 demoEvents).granted - (semRunCount 2 demoEvents).released ≤ 2 ∧
     (semRun 2 demoEvents).current ≤ 2) :=
  ⟨by decide, semaphore_outstanding_le_max 2 demoEvents (by decide)⟩

/-- C9 counterexample: a release token is the closure of line 19 and line 23
over this.release, so invoking it a second time performs a second release.
From the state with capacity one, one permit held and one queued waiter, the
first invocation wakes the waiter; the second invocation - which the claim
says has no further effect - decrements the permit counter from one to zero,
returning a further permit to the pool. -/
theorem release_token_twice_changes_state :
    (semStep (⟨1, 1, 1⟩ : Sem) .release).current = 1 ∧
    (semStep (semStep (⟨1, 1, 1⟩ : Sem) .release) .release).current = 0 ∧
    semStep (semStep (⟨1, 1, 1⟩ : Sem) .release) .release ≠
      semStep (⟨1, 1, 1⟩ : Sem) .release := by
  refine ⟨by decide, by decide, by decide⟩

/-- C9 (amended): a release token carries no once-only guard - each
invocation runs release, so from every semaphore state a second invocation
changes the state further (it decrements the counter again or consumes
another waiter); release-exactly-once holds only by caller discipline, the
try/finally of lines 190-196 invoking each token a single time. -/
theorem release_token_second_call_effect (s : Sem) :
    semStep (semStep s .release) .release ≠ semStep s .release := by
  rcases s with ⟨m, c, w⟩
  intro h
  by_cases hw : 0 < w
  · by_cases hw1 : 0 < w - 1
    · simp only [semStep, if_pos hw] at h
      simp only [if_pos hw1, Sem.mk.injEq] at h
      omega
    · simp only [semStep, if_pos hw] at h
      simp only [if_neg hw1, Sem.mk.injEq] at h
      omega
  · simp only [semStep, if_neg hw, Sem.mk.injEq] at h
    omega

/-- C4 counterexample: an I/O error while fingerprinting does not produce
STATE_ERROR. For a file that stat can see but reads fail on (for example a
permission-denied file), getFileHash swallows its error and returns null, so
with a stored entry carrying a fingerprint the decision is MODIFIED - the
catch of shouldProcessFile, the only source of the state-error reason, never
runs. The spec-worded decision function returns STATE_ERROR on the same
input. -/
theorem fingerprint_error_not_state_error :
    shouldProcessFile (fun l => l.length) false oneEntryState "a.vtt".toList
        .unreadable = ⟨true, .modified⟩ ∧
    Reason.modified ≠ Reason.stateError ∧
    decideSpec (fun l => l.length) false oneEntryState "a.vtt".toList
        .unreadable = ⟨true, .stateError⟩ := by
  refine ⟨by decide, by decide, by decide⟩

/-- C4 (amended): the decision function matches the claimed description on
every input except present-but-unreadable files: FORCED when the force flag
is set, STATE_ERROR when stat fails (absent file) - which is dispatched -
otherwise NEW without a prior entry, MODIFIED when the stored fingerprint
differs from the current one, else UNCHANGED. On an I/O error while reading
a stat-visible file for fingerprinting, the hash is null and the decision
falls through the NEW/MODIFIED/UNCHANGED comparison instead of returning
STATE_ERROR. -/
theorem shouldProcessFile_matches_spec (hashFn : List Char → Nat) (force : Bool)
    (st : StateMap) (filename : List Char) (fa : FileAccess)
    (h : fa ≠ .unreadable) :
    shouldProcessFile hashFn force st filename fa =
      decideSpec hashFn force st filename fa := by
  unfold shouldProcessFile decideSpec
  cases fa with
  | absent => rfl
  | unreadable => exact absurd rfl h
  | readable c => rfl

/-- C4 witness: a readable file with a matching stored fingerprint. -/
theorem shouldProcessFile_matches_spec_witness :
    (FileAccess.readable "hi".toList ≠ FileAccess.unreadable) ∧
    shouldProcessFile (fun l => l.length) false oneEntryState "a.vtt".toList
        (.readable "hi".toList) =
      decideSpec (fun l => l.length) false oneEntryState "a.vtt".toList
        (.readable "hi".toList) :=
  ⟨by decide,
   shouldProcessFile_matches_spec (fun l => l.length) false oneEntryState
     "a.vtt".toList (.readable "hi".toList) (by decide)⟩

/-- When the fix result does not report success with a positive count, the
correction engine performed no filesystem writes. -/
theorem applyCorrectionsFS_fs_of_not_applied (fs : FS) (p : Path)
    (content : List Char) (cs : List Correction)
    (h : ¬ ((applyCorrectionsFS fs p content cs).2.success = true ∧
            0 < (applyCorrectionsFS fs p content cs).2.changesCount)) :
    (applyCorrectionsFS fs p content cs).1 = fs := by
  unfold applyCorrectionsFS at *
  by_cases hc : 0 < (applyCorrections content cs).2.1
  · rw [if_pos hc] at h ⊢
    cases hfa : fs p with
    | readable cur => rw [hfa] at h; exact absurd ⟨rfl, hc⟩ h
    | absent => rfl
    | unreadable => rfl
  · rw [if_neg hc]

/-- C5 (amended): whatever the analysis result, the state entry a file's
pipeline records (when it records one) carries exactly the fingerprint of
the content that file holds on disk at the moment it is recorded -
post-correction content when corrections were written, the untouched content
otherwise. The end-of-run form of the claim is false: a later file's backup
write can land on an earlier recorded file's path, because the backup path
is derived by first-occurrence replacement (see the counterexample). -/
theorem recorded_hash_matches_disk (hashFn : List Char → Nat) (fs : FS)
    (filename : List Char) (analysis : AnalysisResult) :
    (checkVTTFile hashFn fs filename analysis).entry = none ∨
    ∃ e, (checkVTTFile hashFn fs filename analysis).entry = some e ∧
      e.hash = getFileHash hashFn
        ((checkVTTFile hashFn fs filename analysis).fs (vttPath filename)) := by
  simp only [checkVTTFile]
  split
  · split
    · left; rfl
    · split
      · split
        · right; exact ⟨_, rfl, rfl⟩
        · rename_i content hmatch hempty hs hna
          right
          refine ⟨_, rfl, ?_⟩
          show getFileHash hashFn (fs (vttPath filename)) =
            getFileHash hashFn
              ((applyCorrectionsFS fs (vttPath filename) content
                (corrOf analysis)).1 (vttPath filename))
          rw [applyCorrectionsFS_fs_of_not_applied _ _ _ _ hna]
      · right; exact ⟨_, rfl, rfl⟩
  · left; rfl

/-- C5 counterexample: the end-of-run invariant fails. In the run over
a.vtt.backup.vtt and a.vtt.vtt, the first file is recorded with the
fingerprint of its own content, but correcting the second file writes its
backup to subtitles/a.vtt.backup.vtt - the first file's path - so when the
state is persisted at the end of the run, the recorded hash for
a.vtt.backup.vtt no longer matches the content its path holds on disk. -/
theorem persisted_hash_mismatch_at_run_end :
    clobberRun.st "a.vtt.backup.vtt".toList =
      some ⟨some vttSample.length, false⟩ ∧
    clobberRun.fs (vttPath "a.vtt.backup.vtt".toList) = .readable tehVtt ∧
    getFileHash (fun l => l.length)
        (clobberRun.fs (vttPath "a.vtt.backup.vtt".toList)) ≠
      some vttSample.length := by
  refine ⟨by decide, by decide, by decide⟩

/-- Every result entry pushed by checkVTTFile carries the processed file
name. -/
theorem checkVTTFile_res_name (hashFn : List Char → Nat) (fs : FS)
    (n : List Char) (a : AnalysisResult) :
    ∀ r ∈ (checkVTTFile hashFn fs n a).res.toList, r.name = n := by
  intro r hr
  simp only [checkVTTFile] at hr
  split at hr
  · split at hr
    · simp at hr
    · split at hr
      · split at hr
        · simp at hr; rw [hr]; rfl
        · simp at hr; rw [hr]; rfl
      · simp at hr; rw [hr]; rfl
  · simp at hr; rw [hr]; rfl

/-- Every per-file result collected by a pipeline run belongs to one of the
dispatched files. -/
theorem runPipeline_res_names (hashFn : List Char → Nat) :
    ∀ (names : List (List Char)) (fs : FS) (st : StateMap)
      (an : List Char → AnalysisResult),
      ∀ r ∈ (runPipeline hashFn fs st names an).results, r.name ∈ names := by
  intro names
  induction names with
  | nil => intro fs st an r hr; simp [runPipeline] at hr
  | cons n rest ih =>
      intro fs st an r hr
      simp only [runPipeline] at hr
      rw [List.mem_append] at hr
      cases hr with
      | inl h =>
          rw [checkVTTFile_res_name hashFn fs n (an n) r h]
          exact List.mem_cons_self n rest
      | inr h => exact List.mem_cons_of_mem _ (ih _ _ _ r h)

/-- A file whose decision is should-false is not in the dispatch list. -/
theorem notMem_dispatch (hashFn : List Char → Nat) (force : Bool) (fs : FS)
    (st : StateMap) (files : List (List Char)) (f : List Char)
    (h : (shouldProcessFile hashFn force st f (fs (vttPath f))).should = false) :
    f ∉ (planFiles hashFn force fs st files).1 := by
  intro hmem
  unfold planFiles at hmem
  rw [List.mem_filter] at hmem
  obtain ⟨-, hp⟩ := hmem
  rw [h] at hp
  exact absurd hp (by decide)

/-- C7: fingerprints are a function of content alone, so for a file recorded
in the state with the fingerprint of its current byte-identical content, a
run without the force flag decides UNCHANGED, leaves the file out of the
dispatch list, and collects no per-file result for it - hence issues no
Analysis Client call for it. -/
theorem unchanged_skip_no_calls (hashFn : List Char → Nat) (fs : FS)
    (st : StateMap) (files : List (List Char)) (filename content : List Char)
    (e : FileStateEntry) (an : List Char → AnalysisResult)
    (hread : fs (vttPath filename) = .readable content)
    (hentry : st filename = some e)
    (hhash : e.hash = some (hashFn content)) :
    shouldProcessFile hashFn false st filename (fs (vttPath filename)) =
      ⟨false, .unchanged⟩ ∧
    filename ∉ (planFiles hashFn false fs st files).1 ∧
    ∀ r ∈ (processVTTFilesModel hashFn false fs st files an).results,
      r.name ≠ filename := by
  have hdec : shouldProcessFile hashFn false st filename (fs (vttPath filename)) =
      ⟨false, .unchanged⟩ := by
    rw [hread]
    simp [shouldProcessFile, hentry, getFileHash, readF, hhash]
  refine ⟨hdec, ?_, ?_⟩
  · exact notMem_dispatch hashFn false fs st files filename (by rw [hdec])
  · intro r hr heq
    simp only [processVTTFilesModel] at hr
    have hmem := runPipeline_res_names hashFn _ _ _ _ r hr
    rw [heq] at hmem
    exact notMem_dispatch hashFn false fs st
      (files.filter (fun f => endsWithList f dotVtt)) filename (by rw [hdec]) hmem

/-- C7 witness: the file "a.vtt" with stored fingerprint five (the length of
"hello") and readable content "hello" is decided UNCHANGED, kept out of the
dispatch list, and no result of the run names it. -/
theorem unchanged_skip_no_calls_witness :
    (demoSkipFS (vttPath "a.vtt".toList) = .readable "hello".toList ∧
     oneEntryState "a.vtt".toList = some ⟨some 5, false⟩ ∧
     (some 5 : Option Nat) = some (("hello".toList).length)) ∧
    shouldProcessFile (fun l => l.length) false oneEntryState "a.vtt".toList
        (demoSkipFS (vttPath "a.vtt".toList)) = ⟨false, .unchanged⟩ ∧
    "a.vtt".toList ∉
      (planFiles (fun l => l.length) false demoSkipFS oneEntryState
        ["a.vtt".toList]).1 :=
  ⟨⟨by decide, by decide, by decide⟩,
   (unchanged_skip_no_calls (fun l => l.length) demoSkipFS oneEntryState
      ["a.vtt".toList] "a.vtt".toList "hello".toList ⟨some 5, false⟩
      (fun _ => ⟨.skipped, none⟩) (by decide) (by decide) (by decide)).1,
   (unchanged_skip_no_calls (fun l => l.length) demoSkipFS oneEntryState
      ["a.vtt".toList] "a.vtt".toList "hello".toList ⟨some 5, false⟩
      (fun _ => ⟨.skipped, none⟩) (by decide) (by decide) (by decide)).2.1⟩

/-- An analysis-client failure (status error) leaves the filesystem
untouched: the correction branch of checkVTTFile requires a success status. -/
theorem checkVTTFile_fs_of_error (hashFn : List Char → Nat) (fs : FS)
    (n : List Char) (a : AnalysisResult) (h : a.status = .error) :
    (checkVTTFile hashFn fs n a).fs = fs := by
  simp only [checkVTTFile]
  split
  · split
    · rfl
    · split
      · rename_i hs
        exact absurd (hs.1.symm.trans h) (by decide)
      · rfl
  · rfl

/-- C8: a fault while processing file A - here an Analysis Client failure for
A, which the client converts into a status-error result - is confined to A:
A performs no filesystem writes, the run over [A, B] still collects both
per-file results with B's result exactly what B alone would produce from the
same initial filesystem, the final filesystem is the one B alone would
produce, and B's state entry is recorded exactly as B alone would record
it. -/
theorem per_file_isolation (hashFn : List Char → Nat) (fs : FS) (st : StateMap)
    (A B : List Char) (an : List Char → AnalysisResult)
    (hne : A ≠ B) (herr : (an A).status = .error) :
    (checkVTTFile hashFn fs A (an A)).fs = fs ∧
    (runPipeline hashFn fs st [A, B] an).results =
      (checkVTTFile hashFn fs A (an A)).res.toList ++
        (checkVTTFile hashFn fs B (an B)).res.toList ∧
    (runPipeline hashFn fs st [A, B] an).fs =
      (checkVTTFile hashFn fs B (an B)).fs ∧
    (runPipeline hashFn fs st [A, B] an).st B =
      setEntry st B (checkVTTFile hashFn fs B (an B)).entry B := by
  have hfs := checkVTTFile_fs_of_error hashFn fs A (an A) herr
  have hrun : runPipeline hashFn fs st [A, B] an =
      ⟨(checkVTTFile hashFn fs B (an B)).fs,
       setEntry (setEntry st A (checkVTTFile hashFn fs A (an A)).entry) B
         (checkVTTFile hashFn fs B (an B)).entry,
       (checkVTTFile hashFn fs A (an A)).res.toList ++
         ((checkVTTFile hashFn fs B (an B)).res.toList ++ [])⟩ := by
    simp only [runPipeline]
    rw [hfs]
  refine ⟨hfs, ?_, ?_, ?_⟩
  · rw [hrun]
    simp
  · rw [hrun]
  · rw [hrun]
    show setEntry (setEntry st A (checkVTTFile hashFn fs A (an A)).entry) B
        (checkVTTFile hashFn fs B (an B)).entry B =
      setEntry st B (checkVTTFile hashFn fs B (an B)).entry B
    cases hB : (checkVTTFile hashFn fs B (an B)).entry with
    | some e => simp [setEntry]
    | none =>
        cases hA : (checkVTTFile hashFn fs A (an A)).entry with
        | some e2 => simp [setEntry, Ne.symm hne]
        | none => rfl

/-- C8 witness: file a.vtt suffers an analysis failure while b.vtt succeeds;
both results are collected and b.vtt is unaffected. -/
theorem per_file_isolation_witness :
    ("a.vtt".toList ≠ "b.vtt".toList ∧
     (demoAnalyses "a.vtt".toList).status = .error) ∧
    (runPipeline (fun l => l.length) twoFileFS oneEntryState
        ["a.vtt".toList, "b.vtt".toList] demoAnalyses).results =
      (checkVTTFile (fun l => l.length) twoFileFS "a.vtt".toList
          (demoAnalyses "a.vtt".toList)).res.toList ++
        (checkVTTFile (fun l => l.length) twoFileFS "b.vtt".toList
          (demoAnalyses "b.vtt".toList)).res.toList ∧
    (runPipeline (fun l => l.length) twoFileFS oneEntryState
        ["a.vtt".toList, "b.vtt".toList] demoAnalyses).st "b.vtt".toList =
      setEntry oneEntryState "b.vtt".toList
        (checkVTTFile (fun l => l.length) twoFileFS "b.vtt".toList
          (demoAnalyses "b.vtt".toList)).entry "b.vtt".toList :=
  ⟨⟨by decide, by decide⟩,
   (per_file_isolation (fun l => l.length) twoFileFS oneEntryState
      "a.vtt".toList "b.vtt".toList demoAnalyses (by decide) (by decide)).2.1,
   (per_file_isolation (fun l => l.length) twoFileFS oneEntryState
      "a.vtt".toList "b.vtt".toList demoAnalyses (by decide) (by decide)).2.2.2⟩

/-- When the fix result reports success with a positive count, the corrected
file now holds the post-correction content. -/
theorem applyCorrectionsFS_path_of_applied (fs : FS) (p : Path)
    (content : List Char) (cs : List Correction)
    (h : (applyCorrectionsFS fs p content cs).2.success = true ∧
         0 < (applyCorrectionsFS fs p content cs).2.changesCount) :
    (applyCorrectionsFS fs p content cs).1 p =
      .readable (applyCorrections content cs).1 := by
  unfold applyCorrectionsFS at *
  by_cases hc : 0 < (applyCorrections content cs).2.1
  · rw [if_pos hc] at h ⊢
    cases hfa : fs p with
    | readable cur =>
        show writeFS (writeFS fs (backupPathOf p) cur) p
            (applyCorrections content cs).1 p =
          .readable (applyCorrections content cs).1
        unfold writeFS
        rw [if_pos rfl]
    | absent => rw [hfa] at h; simp at h
    | unreadable => rw [hfa] at h; simp at h
  · rw [if_neg hc] at h
    exact absurd h.2 hc

/-- On a readable file with non-empty extracted text, checkVTTFile always
records a state entry - whatever the analysis status - and the entry's hash
is the fingerprint of the content the file's path holds once the call is
done. -/
theorem checkVTTFile_entry_hash (hashFn : List Char → Nat) (fs : FS)
    (filename content : List Char) (analysis : AnalysisResult)
    (hread : fs (vttPath filename) = .readable content)
    (htext : trimJS (extractTextFromVTT content) ≠ []) :
    ∃ e c2, (checkVTTFile hashFn fs filename analysis).entry = some e ∧
      (checkVTTFile hashFn fs filename analysis).fs (vttPath filename) =
        .readable c2 ∧
      e.hash = some (hashFn c2) := by
  have hne1 : extractTextFromVTT content ≠ [] := fun h0 => htext (by rw [h0]; rfl)
  simp only [checkVTTFile, hread]
  rw [if_neg (by simp [hne1, htext])]
  split
  · split
    · rename_i hap
      refine ⟨_, (applyCorrections content (corrOf analysis)).1, rfl, ?_, ?_⟩
      · exact applyCorrectionsFS_path_of_applied fs (vttPath filename) content
          (corrOf analysis) hap
      · show getFileHash hashFn
            ((applyCorrectionsFS fs (vttPath filename) content
              (corrOf analysis)).1 (vttPath filename)) =
          some (hashFn (applyCorrections content (corrOf analysis)).1)
        rw [applyCorrectionsFS_path_of_applied fs (vttPath filename) content
          (corrOf analysis) hap]
        rfl
    · rename_i hna
      refine ⟨_, content, rfl, ?_, rfl⟩
      rw [applyCorrectionsFS_fs_of_not_applied fs (vttPath filename) content
        (corrOf analysis) hna]
      exact hread
  · exact ⟨_, content, rfl, hread, rfl⟩

/-- C10: for every dispatched readable file whose extracted text is
non-empty, checkVTTFile records a state entry whatever the analysis status -
success, error or skipped (for example a missing API credential) - and the
entry carries the fingerprint of the content the file's path holds once the
call is done: the file's current content hash, post-correction when
corrections were applied, the untouched content otherwise. Consequently a
subsequent run without the force flag over the unchanged file decides
UNCHANGED, leaves the file out of the dispatch list, and never retries the
analysis for it. -/
theorem state_updated_regardless_of_status (hashFn : List Char → Nat) (fs : FS)
    (st : StateMap) (filename content : List Char) (analysis : AnalysisResult)
    (files : List (List Char))
    (hread : fs (vttPath filename) = .readable content)
    (htext : trimJS (extractTextFromVTT content) ≠ []) :
    (checkVTTFile hashFn fs filename analysis).entry.isSome = true ∧
    (∃ e c2, (checkVTTFile hashFn fs filename analysis).entry = some e ∧
      (checkVTTFile hashFn fs filename analysis).fs (vttPath filename) =
        .readable c2 ∧
      e.hash = some (hashFn c2)) ∧
    shouldProcessFile hashFn false
        (setEntry st filename (checkVTTFile hashFn fs filename analysis).entry)
        filename
        ((checkVTTFile hashFn fs filename analysis).fs (vttPath filename)) =
      ⟨false, .unchanged⟩ ∧
    filename ∉ (planFiles hashFn false
        (checkVTTFile hashFn fs filename analysis).fs
        (setEntry st filename (checkVTTFile hashFn fs filename analysis).entry)
        files).1 := by
  obtain ⟨e, c2, hent, hfs2, hh⟩ :=
    checkVTTFile_entry_hash hashFn fs filename content analysis hread htext
  have hdec : shouldProcessFile hashFn false
      (setEntry st filename (checkVTTFile hashFn fs filename analysis).entry)
      filename
      ((checkVTTFile hashFn fs filename analysis).fs (vttPath filename)) =
      ⟨false, .unchanged⟩ := by
    rw [hent, hfs2]
    simp [shouldProcessFile, setEntry, getFileHash, readF, hh]
  refine ⟨by rw [hent]; rfl, ⟨e, c2, hent, hfs2, hh⟩, hdec, ?_⟩
  exact notMem_dispatch hashFn false _ _ files filename (by rw [hdec])

/-- C10 witness: the file a.vtt with the sample content and a successful
analysis reporting no corrections gets a state entry carrying the current
content hash and is skipped as UNCHANGED - not re-analyzed - by a subsequent
unforced run. -/
theorem state_updated_regardless_of_status_witness :
    (twoFileFS (vttPath "a.vtt".toList) = .readable vttSample ∧
     trimJS (extractTextFromVTT vttSample) ≠ []) ∧
    (checkVTTFile (fun l => l.length) twoFileFS "a.vtt".toList
        (⟨.success, some []⟩ : AnalysisResult)).entry.isSome = true ∧
    (∃ e c2, (checkVTTFile (fun l => l.length) twoFileFS "a.vtt".toList
          (⟨.success, some []⟩ : AnalysisResult)).entry = some e ∧
      (checkVTTFile (fun l => l.length) twoFileFS "a.vtt".toList
          (⟨.success, some []⟩ : AnalysisResult)).fs (vttPath "a.vtt".toList) =
        .readable c2 ∧
      e.hash = some (c2.length)) ∧
    shouldProcessFile (fun l => l.length) false
        (setEntry oneEntryState "a.vtt".toList
          (checkVTTFile (fun l => l.length) twoFileFS "a.vtt".toList
            (⟨.success, some []⟩ : AnalysisResult)).entry)
        "a.vtt".toList
        ((checkVTTFile (fun l => l.length) twoFileFS "a.vtt".toList
            (⟨.success, some []⟩ : AnalysisResult)).fs (vttPath "a.vtt".toList)) =
      ⟨false, .unchanged⟩ ∧
    "a.vtt".toList ∉ (planFiles (fun l => l.length) false
        (checkVTTFile (fun l => l.length) twoFileFS "a.vtt".toList
          (⟨.success, some []⟩ : AnalysisResult)).fs
        (setEntry oneEntryState "a.vtt".toList
          (checkVTTFile (fun l => l.length) twoFileFS "a.vtt".toList
            (⟨.success, some []⟩ : AnalysisResult)).entry)
        ["a.vtt".toList]).1 :=
  ⟨⟨by decide, by decide⟩,
   state_updated_regardless_of_status (fun l => l.length) twoFileFS oneEntryState
     "a.vtt".toList vttSample ⟨.success, some []⟩ ["a.vtt".toList]
     (by decide) (by decide)⟩

end CheckSpelling
